import Mathlib

/-!
Shallow embedding of the `AutoEcuFHE` Solidity contract
(`src/contracts/AutoEcuFHE.sol`) and proofs about its encrypted-message
lifecycle.

Modelling conventions:
* `euint32` ciphertext handles are opaque; we carry them as `Nat`.
  The per-ECU encrypted counter (`mapping(string => euint32) encryptedEcuStats`)
  is modelled as `String → Option Nat`: `none` is an uninitialized handle
  (`FHE.isInitialized` false), `some v` an initialized counter whose plaintext
  shadow is `v`.  `FHE.asEuint32 0` is `some 0`; `FHE.add c (asEuint32 1)`
  wraps modulo `2 ^ 32` as homomorphic `euint32` addition does.
* Solidity mappings are total functions with the default value (`0`, empty
  record, `none`) at unset keys, exactly as EVM storage behaves.
* A Solidity `require` failure / revert is `Except.error reason`; a revert
  aborts the transaction, so the caller keeps the pre-state — an `.error`
  result leaves the state unchanged by construction.
* The FHE oracle is external.  `FHE.requestDecryption` returns a request id
  chosen by the oracle: we take it as a parameter.  A callback whose
  `FHE.checkSignatures` fails reverts with no state change, so successful
  callback executions are the only ones that matter for reachable state;
  the callback functions here take the already-decoded cleartexts
  (three strings for `verifyCommand`, a counter value for `decryptEcuStats`)
  as arguments, i.e. they model executions in which the signature check and
  `abi.decode` succeed.
* `keccak256(abi.encodePacked(s))` for a string `s` is an opaque
  deterministic function of `s`; `keccakStr` below is an executable
  stand-in, and keccak equality of strings is modelled as string equality
  (collision resistance).
* `msg.sender` is available to every public function but never read by the
  contract; we pass it as a `caller : Nat` argument to the request and
  callback functions so that caller-independence is a statement about the
  embedding, not an artifact of omitting the caller.
* `uint256` arithmetic: `messageCount += 1` can in principle overflow at
  `2 ^ 256 - 1` submissions; that bound is physically unreachable and is
  not modelled (counts are `Nat`).
-/

namespace AutoEcuFHE

/-- `struct EncryptedCanMessage` from the contract. -/
structure EncryptedCanMessage where
  id : Nat
  encryptedCommand : Nat
  encryptedSourceEcu : Nat
  encryptedTargetEcu : Nat
  timestamp : Nat
deriving Repr, DecidableEq

/-- `struct DecryptedCanMessage` from the contract. -/
structure DecryptedCanMessage where
  command : String
  sourceEcu : String
  targetEcu : String
  isVerified : Bool
deriving Repr, DecidableEq

/-- Default (all-zero) EVM storage slot for `EncryptedCanMessage`. -/
def defaultEncrypted : EncryptedCanMessage := ⟨0, 0, 0, 0, 0⟩

/-- Default (all-zero) EVM storage slot for `DecryptedCanMessage`. -/
def defaultDecrypted : DecryptedCanMessage := ⟨"", "", "", false⟩

/-- The storage of the `AutoEcuFHE` contract. -/
structure ContractState where
  messageCount : Nat
  encryptedMessages : Nat → EncryptedCanMessage
  decryptedMessages : Nat → DecryptedCanMessage
  encryptedEcuStats : String → Option Nat
  ecuList : List String
  requestToMessageId : Nat → Nat

/-- Contract storage right after deployment: every mapping at its default. -/
def initialState : ContractState where
  messageCount := 0
  encryptedMessages := fun _ => defaultEncrypted
  decryptedMessages := fun _ => defaultDecrypted
  encryptedEcuStats := fun _ => none
  ecuList := []
  requestToMessageId := fun _ => 0

/-- Executable stand-in for `keccak256(abi.encodePacked(s))` cast to
`uint256` via `bytes32ToUint`: an opaque deterministic function of the
string.  No claim depends on its numeric values. -/
def keccakStr (s : String) : Nat :=
  s.data.foldl (fun h c => h * 257 + (c.toNat + 1)) 1

/-- `modifier onlyAuthorized(uint256 messageId)` — its body is just `_;`,
so it imposes no condition on any caller. -/
def onlyAuthorized (messageId : Nat) (caller : Nat) : Bool :=
  true

/-- `submitEncryptedCanMessage`: increments the counter, stores the
ciphertext handles under the new id with the block timestamp, and
initializes the decrypted record to empty strings / unverified. -/
def submitEncryptedCanMessage (s : ContractState)
    (encryptedCommand encryptedSourceEcu encryptedTargetEcu : Nat)
    (blockTimestamp : Nat) : ContractState :=
  let newId := s.messageCount + 1
  { s with
    messageCount := newId
    encryptedMessages := Function.update s.encryptedMessages newId
      ⟨newId, encryptedCommand, encryptedSourceEcu, encryptedTargetEcu,
        blockTimestamp⟩
    decryptedMessages := Function.update s.decryptedMessages newId
      ⟨"", "", "", false⟩ }

/-- `requestCommandVerification`: guarded by the (vacuous) `onlyAuthorized`
modifier; reverts when the message is already verified; otherwise packages
the three handles into an oracle decryption request and records
`requestToMessageId[reqId] = messageId`.  The oracle-assigned request id
`reqId` is a parameter. -/
def requestCommandVerification (s : ContractState)
    (messageId : Nat) (reqId : Nat) (caller : Nat) :
    Except String ContractState :=
  if onlyAuthorized messageId caller = false then
    Except.error "Not authorized"
  else if (s.decryptedMessages messageId).isVerified then
    Except.error "Already verified"
  else
    Except.ok { s with
      requestToMessageId := Function.update s.requestToMessageId reqId
        messageId }

/-- The storage writes of a successful `verifyCommand` body (after the two
`require`s): fill the decrypted record, set `isVerified`, lazily create the
per-ECU counter (appending the name to `ecuList`), then homomorphically
increment it. -/
def applyVerify (s : ContractState) (messageId : Nat)
    (command sourceEcu targetEcu : String) : ContractState :=
  let decrypted := Function.update s.decryptedMessages messageId
    ⟨command, sourceEcu, targetEcu, true⟩
  let statsCreated :=
    if (s.encryptedEcuStats sourceEcu).isSome = false then
      Function.update s.encryptedEcuStats sourceEcu (some 0)
    else
      s.encryptedEcuStats
  let ecuListNew :=
    if (s.encryptedEcuStats sourceEcu).isSome = false then
      s.ecuList ++ [sourceEcu]
    else
      s.ecuList
  { s with
    decryptedMessages := decrypted
    encryptedEcuStats := Function.update statsCreated sourceEcu
      (some (((statsCreated sourceEcu).getD 0 + 1) % 2 ^ 32))
    ecuList := ecuListNew }

/-- `verifyCommand` oracle callback: looks up the message id for the
request id (reverting with "Invalid request" on the default 0), reverts
with "Already verified" when the target message is verified, then (with
`FHE.checkSignatures` passing and the cleartexts decoding to
`command, sourceEcu, targetEcu`) applies the storage writes. -/
def verifyCommand (s : ContractState) (requestId : Nat)
    (command sourceEcu targetEcu : String) (caller : Nat) :
    Except String ContractState :=
  let messageId := s.requestToMessageId requestId
  if messageId = 0 then
    Except.error "Invalid request"
  else if (s.decryptedMessages messageId).isVerified then
    Except.error "Already verified"
  else
    Except.ok (applyVerify s messageId command sourceEcu targetEcu)

/-- `requestEcuStatsDecryption`: reverts when the ECU has no initialized
counter; otherwise requests decryption of the counter and stores the
keccak hash of the ECU name in the same `requestToMessageId` mapping. -/
def requestEcuStatsDecryption (s : ContractState)
    (ecuId : String) (reqId : Nat) (caller : Nat) :
    Except String ContractState :=
  if (s.encryptedEcuStats ecuId).isSome = false then
    Except.error "ECU not found"
  else
    Except.ok { s with
      requestToMessageId := Function.update s.requestToMessageId reqId
        (keccakStr ecuId) }

/-- `getEcuFromHash`: linear scan of `ecuList` for the first name whose
keccak hash equals the stored hash; reverts when none matches. -/
def getEcuFromHash (s : ContractState) (hash : Nat) :
    Except String String :=
  match s.ecuList.find? (fun e => keccakStr e = hash) with
  | some e => Except.ok e
  | none => Except.error "ECU not found"

/-- `decryptEcuStats` oracle callback: resolves the stored hash back to an
ECU name (reverting when no name matches), checks the proof, decodes the
cleartext counter value `stats` — and then discards it: the body performs
no storage write. -/
def decryptEcuStats (s : ContractState) (requestId : Nat)
    (stats : Nat) (caller : Nat) : Except String ContractState :=
  match getEcuFromHash s (s.requestToMessageId requestId) with
  | Except.error e => Except.error e
  | Except.ok _ => Except.ok s

/-- `validateCommand`: stub, unconditionally true. -/
def validateCommand (command sourceEcu targetEcu : String) : Bool :=
  true

/-- `calculateEcuTrustScore`: scans messages `1 .. messageCount`, counting
verified messages whose source ECU matches (`totalCount`, second
component) and among those the ones passing `validateCommand`
(`validCount`, first component); returns `validCount * 100 / totalCount`,
or 100 when `totalCount = 0`.  Keccak equality of the source-ECU strings
is modelled as string equality. -/
def calculateEcuTrustScore (s : ContractState) (ecuId : String) : Nat :=
  let counts := (List.range' 1 s.messageCount).foldl
    (fun (acc : Nat × Nat) i =>
      if (s.decryptedMessages i).isVerified
          && ((s.decryptedMessages i).sourceEcu == ecuId) then
        if validateCommand (s.decryptedMessages i).command
            (s.decryptedMessages i).sourceEcu
            (s.decryptedMessages i).targetEcu then
          (acc.1 + 1, acc.2 + 1)
        else
          (acc.1, acc.2 + 1)
      else acc)
    (0, 0)
  if counts.2 > 0 then counts.1 * 100 / counts.2 else 100

/-- Specification-side count: how many message ids in `1 .. messageCount`
are verified with the given source ECU (the `n` of the trust-score
claim). -/
def verifiedFromCount (s : ContractState) (ecuId : String) : Nat :=
  ((List.range' 1 s.messageCount).filter (fun i =>
    (s.decryptedMessages i).isVerified
      && ((s.decryptedMessages i).sourceEcu == ecuId))).length

/-- Specification-side count: how many of those messages also pass
`validateCommand` (the `k` of the trust-score claim). -/
def validVerifiedFromCount (s : ContractState) (ecuId : String) : Nat :=
  ((List.range' 1 s.messageCount).filter (fun i =>
    (s.decryptedMessages i).isVerified
      && ((s.decryptedMessages i).sourceEcu == ecuId)
      && validateCommand (s.decryptedMessages i).command
          (s.decryptedMessages i).sourceEcu
          (s.decryptedMessages i).targetEcu)).length

/-- One successful state-changing transaction of the contract.  Reverting
calls leave the state unchanged and so add nothing to reachability. -/
inductive Step : ContractState → ContractState → Prop where
  | submit (s : ContractState) (c a b ts : Nat) :
      Step s (submitEncryptedCanMessage s c a b ts)
  | requestVerification (s s' : ContractState)
      (messageId reqId caller : Nat)
      (h : requestCommandVerification s messageId reqId caller =
        Except.ok s') :
      Step s s'
  | verify (s s' : ContractState) (reqId : Nat)
      (command sourceEcu targetEcu : String) (caller : Nat)
      (h : verifyCommand s reqId command sourceEcu targetEcu caller =
        Except.ok s') :
      Step s s'
  | requestStats (s s' : ContractState) (ecuId : String)
      (reqId caller : Nat)
      (h : requestEcuStatsDecryption s ecuId reqId caller = Except.ok s') :
      Step s s'
  | decryptStats (s s' : ContractState) (reqId stats caller : Nat)
      (h : decryptEcuStats s reqId stats caller = Except.ok s') :
      Step s s'

/-- States reachable from deployment by successful transactions. -/
inductive Reachable : ContractState → Prop where
  | init : Reachable initialState
  | step {s s' : ContractState} :
      Reachable s → Step s s' → Reachable s'

/-- Valid-use transitions: like `Step`, but verification is requested only
for already-submitted message ids, and a `verifyCommand` callback is
delivered only for a request id whose stored message id is a submitted
message (`≤ messageCount`) — i.e. the oracle answers only genuine
command-verification requests. -/
inductive StepV : ContractState → ContractState → Prop where
  | submit (s : ContractState) (c a b ts : Nat) :
      StepV s (submitEncryptedCanMessage s c a b ts)
  | requestVerification (s s' : ContractState)
      (messageId reqId caller : Nat)
      (hlo : 1 ≤ messageId) (hhi : messageId ≤ s.messageCount)
      (h : requestCommandVerification s messageId reqId caller =
        Except.ok s') :
      StepV s s'
  | verify (s s' : ContractState) (reqId : Nat)
      (command sourceEcu targetEcu : String) (caller : Nat)
      (hmap : s.requestToMessageId reqId ≤ s.messageCount)
      (h : verifyCommand s reqId command sourceEcu targetEcu caller =
        Except.ok s') :
      StepV s s'
  | requestStats (s s' : ContractState) (ecuId : String)
      (reqId caller : Nat)
      (h : requestEcuStatsDecryption s ecuId reqId caller = Except.ok s') :
      StepV s s'
  | decryptStats (s s' : ContractState) (reqId stats caller : Nat)
      (h : decryptEcuStats s reqId stats caller = Except.ok s') :
      StepV s s'

/-- States reachable from deployment under valid-use transitions. -/
inductive ReachableV : ContractState → Prop where
  | init : ReachableV initialState
  | step {s s' : ContractState} :
      ReachableV s → StepV s s' → ReachableV s'

/-! Concrete execution traces used as witnesses and counterexamples. -/

/-- One message submitted from deployment (handles 11, 12, 13, time 100). -/
def sSub : ContractState :=
  submitEncryptedCanMessage initialState 11 12 13 100

/-- ... then verification of message 1 requested, oracle request id 7. -/
def sReq7 : ContractState :=
  { sSub with
    requestToMessageId := Function.update sSub.requestToMessageId 7 1 }

/-- ... then verification of message 1 requested again, request id 8:
two distinct outstanding request ids both mapping to message 1. -/
def sReq78 : ContractState :=
  { sReq7 with
    requestToMessageId := Function.update sReq7.requestToMessageId 8 1 }

/-- ... then the callback for request id 7 delivered and accepted:
message 1 is verified, and request id 8 still maps to it. -/
def sVer : ContractState :=
  applyVerify sReq78 1 "SET_TORQUE" "ECU_A" "ECU_B"

/-- From deployment (no message submitted), verification requested for the
unsubmitted message id 1 under request id 7 — the contract allows this. -/
def eReq7 : ContractState :=
  { initialState with
    requestToMessageId :=
      Function.update initialState.requestToMessageId 7 1 }

/-- ... then the callback for request id 7 delivered and accepted: the
never-submitted message id 1 is now verified while `messageCount = 0`. -/
def eVer : ContractState :=
  applyVerify eReq7 1 "SET_TORQUE" "ECU_A" "ECU_B"

/-- Invariant of reachable contract states: message id 0 is never
verified; the ECU registry has no duplicates; every registered ECU name
has an initialized counter; an unverified decrypted record is still the
default (empty) record. -/
def ContractInvariant (s : ContractState) : Prop :=
  (s.decryptedMessages 0).isVerified = false ∧
  s.ecuList.Nodup ∧
  (∀ e, e ∈ s.ecuList → (s.encryptedEcuStats e).isSome = true) ∧
  (∀ mid, (s.decryptedMessages mid).isVerified = false →
    s.decryptedMessages mid = defaultDecrypted)

/-- Auxiliary invariant of valid-use states: every verified message id is
at most `messageCount` (i.e. was actually submitted). -/
def VerifiedWithinCount (s : ContractState) : Prop :=
  ∀ mid, (s.decryptedMessages mid).isVerified = true →
    mid ≤ s.messageCount

/-! Inversion lemmas for the transition functions. -/

theorem requestCommandVerification_ok {s s' : ContractState}
    {messageId reqId caller : Nat}
    (h : requestCommandVerification s messageId reqId caller =
      Except.ok s') :
    (s.decryptedMessages messageId).isVerified = false ∧
    s' = { s with
      requestToMessageId := Function.update s.requestToMessageId reqId
        messageId } := by
  by_cases hv : (s.decryptedMessages messageId).isVerified
  · simp [requestCommandVerification, onlyAuthorized, hv] at h
  · simp [requestCommandVerification, onlyAuthorized, hv] at h
    exact ⟨by simpa using hv, h.symm⟩

theorem verifyCommand_ok {s s' : ContractState} {reqId : Nat}
    {command sourceEcu targetEcu : String} {caller : Nat}
    (h : verifyCommand s reqId command sourceEcu targetEcu caller =
      Except.ok s') :
    s.requestToMessageId reqId ≠ 0 ∧
    (s.decryptedMessages (s.requestToMessageId reqId)).isVerified
      = false ∧
    s' = applyVerify s (s.requestToMessageId reqId) command sourceEcu
      targetEcu := by
  by_cases h0 : s.requestToMessageId reqId = 0
  · simp [verifyCommand, h0] at h
  · by_cases hv :
      (s.decryptedMessages (s.requestToMessageId reqId)).isVerified
    · simp [verifyCommand, h0, hv] at h
    · simp [verifyCommand, h0, hv] at h
      exact ⟨h0, by simpa using hv, h.symm⟩

theorem requestEcuStatsDecryption_ok {s s' : ContractState}
    {ecuId : String} {reqId caller : Nat}
    (h : requestEcuStatsDecryption s ecuId reqId caller = Except.ok s') :
    s' = { s with
      requestToMessageId := Function.update s.requestToMessageId reqId
        (keccakStr ecuId) } := by
  by_cases hi : (s.encryptedEcuStats ecuId).isSome
  · simp [requestEcuStatsDecryption, hi] at h
    exact h.symm
  · simp [requestEcuStatsDecryption,
      Bool.eq_false_iff.mpr hi] at h

theorem decryptEcuStats_ok {s s' : ContractState}
    {reqId stats caller : Nat}
    (h : decryptEcuStats s reqId stats caller = Except.ok s') :
    s' = s := by
  unfold decryptEcuStats at h
  cases hg : getEcuFromHash s (s.requestToMessageId reqId) with
  | error e => rw [hg] at h; exact absurd h (by simp)
  | ok e => rw [hg] at h; exact (Except.ok.injEq _ _).mp h |>.symm

/-! Reachability of the concrete traces. -/

theorem reachable_sVer : Reachable sVer :=
  Reachable.step
    (Reachable.step
      (Reachable.step
        (Reachable.step Reachable.init
          (Step.submit initialState 11 12 13 100))
        (Step.requestVerification sSub sReq7 1 7 0 rfl))
      (Step.requestVerification sReq7 sReq78 1 8 0 rfl))
    (Step.verify sReq78 sVer 7 "SET_TORQUE" "ECU_A" "ECU_B" 0 rfl)

theorem reachableV_sReq78 : ReachableV sReq78 :=
  ReachableV.step
    (ReachableV.step
      (ReachableV.step ReachableV.init
        (StepV.submit initialState 11 12 13 100))
      (StepV.requestVerification sSub sReq7 1 7 0 (by decide) (by decide)
        rfl))
    (StepV.requestVerification sReq7 sReq78 1 8 0 (by decide) (by decide)
      rfl)

theorem reachableV_sVer : ReachableV sVer :=
  ReachableV.step reachableV_sReq78
    (StepV.verify sReq78 sVer 7 "SET_TORQUE" "ECU_A" "ECU_B" 0
      (by decide) rfl)

theorem reachable_eVer : Reachable eVer :=
  Reachable.step
    (Reachable.step Reachable.init
      (Step.requestVerification initialState eReq7 1 7 0 rfl))
    (Step.verify eReq7 eVer 7 "SET_TORQUE" "ECU_A" "ECU_B" 0 rfl)

/-- Every valid-use transition is a transition. -/
theorem StepV.toStep {s s' : ContractState} (h : StepV s s') : Step s s' := by
  cases h with
  | submit c a b ts => exact Step.submit s c a b ts
  | requestVerification t messageId reqId caller hlo hhi h =>
    exact Step.requestVerification s s' messageId reqId caller h
  | verify t reqId command sourceEcu targetEcu caller hmap h =>
    exact Step.verify s s' reqId command sourceEcu targetEcu caller h
  | requestStats t ecuId reqId caller h =>
    exact Step.requestStats s s' ecuId reqId caller h
  | decryptStats t reqId stats caller h =>
    exact Step.decryptStats s s' reqId stats caller h

/-- Every valid-use-reachable state is reachable. -/
theorem ReachableV.toReachable {s : ContractState} (h : ReachableV s) :
    Reachable s := by
  induction h with
  | init => exact Reachable.init
  | step _ hstep ih => exact Reachable.step ih hstep.toStep

/-! Preservation of the invariant by each operation. -/

theorem contractInvariant_initial : ContractInvariant initialState := by
  refine ⟨rfl, List.nodup_nil, ?_, ?_⟩
  · intro e he; simp [initialState] at he
  · intro mid _; rfl

theorem contractInvariant_submit {s : ContractState}
    (h : ContractInvariant s) (c a b ts : Nat) :
    ContractInvariant (submitEncryptedCanMessage s c a b ts) := by
  obtain ⟨ih0, ihN, ihM, ihE⟩ := h
  refine ⟨?_, ihN, ihM, ?_⟩
  · simpa [submitEncryptedCanMessage,
      Function.update_noteq (by omega : (0 : Nat) ≠ s.messageCount + 1)]
      using ih0
  · intro mid
    by_cases hm : mid = s.messageCount + 1
    · subst hm
      simp [submitEncryptedCanMessage, Function.update_same,
        defaultDecrypted]
    · simpa [submitEncryptedCanMessage, Function.update_noteq hm]
        using ihE mid

theorem contractInvariant_applyVerify {s : ContractState} {mid : Nat}
    (h : ContractInvariant s) (h0 : mid ≠ 0)
    (command sourceEcu targetEcu : String) :
    ContractInvariant (applyVerify s mid command sourceEcu targetEcu) := by
  obtain ⟨ih0, ihN, ihM, ihE⟩ := h
  refine ⟨?_, ?_, ?_, ?_⟩
  · simpa [applyVerify, Function.update_noteq (Ne.symm h0)] using ih0
  · cases hstat : s.encryptedEcuStats sourceEcu with
    | none =>
      have hnotmem : sourceEcu ∉ s.ecuList := by
        intro hmem
        have := ihM sourceEcu hmem
        simp [hstat] at this
      simp only [applyVerify, hstat, Option.isSome_none]
      simp [List.nodup_append, ihN, hnotmem]
    | some v =>
      simpa [applyVerify, hstat] using ihN
  · intro e he
    by_cases hes : e = sourceEcu
    · subst hes
      simp [applyVerify, Function.update_same]
    · cases hstat : s.encryptedEcuStats sourceEcu with
      | none =>
        have hmem : e ∈ s.ecuList := by
          simp [applyVerify, hstat] at he
          rcases he with h' | h'
          · exact h'
          · exact absurd h' hes
        have hst : (applyVerify s mid command sourceEcu
            targetEcu).encryptedEcuStats e = s.encryptedEcuStats e := by
          simp [applyVerify, hstat, Function.update_noteq hes]
        rw [hst]
        exact ihM e hmem
      | some v =>
        have hmem : e ∈ s.ecuList := by
          simpa [applyVerify, hstat] using he
        have hst : (applyVerify s mid command sourceEcu
            targetEcu).encryptedEcuStats e = s.encryptedEcuStats e := by
          simp [applyVerify, hstat, Function.update_noteq hes]
        rw [hst]
        exact ihM e hmem
  · intro mid' hmid
    by_cases hm : mid' = mid
    · subst hm
      simp [applyVerify, Function.update_same] at hmid
    · rw [show (applyVerify s mid command sourceEcu
          targetEcu).decryptedMessages mid' = s.decryptedMessages mid' from
          Function.update_noteq hm _ _] at hmid ⊢
      exact ihE mid' hmid

theorem contractInvariant_step {s s' : ContractState} (hstep : Step s s')
    (h : ContractInvariant s) : ContractInvariant s' := by
  cases hstep with
  | submit c a b ts => exact contractInvariant_submit h c a b ts
  | requestVerification t messageId reqId caller hok =>
    obtain ⟨-, rfl⟩ := requestCommandVerification_ok hok
    exact h
  | verify t reqId command sourceEcu targetEcu caller hok =>
    obtain ⟨h0, hv, rfl⟩ := verifyCommand_ok hok
    exact contractInvariant_applyVerify h h0 command sourceEcu targetEcu
  | requestStats t ecuId reqId caller hok =>
    obtain rfl := requestEcuStatsDecryption_ok hok
    exact h
  | decryptStats t reqId stats caller hok =>
    obtain rfl := decryptEcuStats_ok hok
    exact h

/-- Every reachable contract state satisfies the invariant. -/
theorem reachable_invariant {s : ContractState} (hs : Reachable s) :
    ContractInvariant s := by
  induction hs with
  | init => exact contractInvariant_initial
  | step _ hstep ih => exact contractInvariant_step hstep ih

/-! Valid-use invariants: verified ids are submitted ids, and
verification is never undone. -/

theorem verifiedWithin_stepV {s s' : ContractState} (hstep : StepV s s')
    (h : VerifiedWithinCount s) : VerifiedWithinCount s' := by
  cases hstep with
  | submit c a b ts =>
    intro mid hv
    show mid ≤ s.messageCount + 1
    by_cases hm : mid = s.messageCount + 1
    · omega
    · have : (s.decryptedMessages mid).isVerified = true := by
        simpa [submitEncryptedCanMessage,
          Function.update_noteq hm] using hv
      exact le_trans (h mid this) (by omega)
  | requestVerification t messageId reqId caller hlo hhi hok =>
    obtain ⟨-, rfl⟩ := requestCommandVerification_ok hok
    exact h
  | verify t reqId command sourceEcu targetEcu caller hmap hok =>
    obtain ⟨h0, hunv, rfl⟩ := verifyCommand_ok hok
    intro mid hv
    show mid ≤ s.messageCount
    by_cases hm : mid = s.requestToMessageId reqId
    · subst hm; exact hmap
    · have : (s.decryptedMessages mid).isVerified = true := by
        simpa [applyVerify, Function.update_noteq hm] using hv
      exact h mid this
  | requestStats t ecuId reqId caller hok =>
    obtain rfl := requestEcuStatsDecryption_ok hok
    exact h
  | decryptStats t reqId stats caller hok =>
    obtain rfl := decryptEcuStats_ok hok
    exact h

theorem reachableV_verifiedWithin {s : ContractState}
    (hs : ReachableV s) : VerifiedWithinCount s := by
  induction hs with
  | init =>
    intro mid hv
    simp [initialState, defaultDecrypted] at hv
  | step _ hstep ih => exact verifiedWithin_stepV hstep ih

theorem stepV_preserves_verified {s s' : ContractState}
    (hstep : StepV s s') (hw : VerifiedWithinCount s) (mid : Nat)
    (hv : (s.decryptedMessages mid).isVerified = true) :
    (s'.decryptedMessages mid).isVerified = true := by
  cases hstep with
  | submit c a b ts =>
    have hm : mid ≠ s.messageCount + 1 := by
      have := hw mid hv
      omega
    simpa [submitEncryptedCanMessage, Function.update_noteq hm] using hv
  | requestVerification t messageId reqId caller hlo hhi hok =>
    obtain ⟨-, rfl⟩ := requestCommandVerification_ok hok
    exact hv
  | verify t reqId command sourceEcu targetEcu caller hmap hok =>
    obtain ⟨h0, hunv, rfl⟩ := verifyCommand_ok hok
    by_cases hm : mid = s.requestToMessageId reqId
    · subst hm
      simp [applyVerify, Function.update_same]
    · simpa [applyVerify, Function.update_noteq hm] using hv
  | requestStats t ecuId reqId caller hok =>
    obtain rfl := requestEcuStatsDecryption_ok hok
    exact hv
  | decryptStats t reqId stats caller hok =>
    obtain rfl := decryptEcuStats_ok hok
    exact hv

/-! Shared helpers for the callback guards. -/

theorem verifyCommand_already_verified {s : ContractState} {reqId : Nat}
    (h0 : s.requestToMessageId reqId ≠ 0)
    (hv : (s.decryptedMessages (s.requestToMessageId reqId)).isVerified
      = true)
    (command sourceEcu targetEcu : String) (caller : Nat) :
    verifyCommand s reqId command sourceEcu targetEcu caller =
      Except.error "Already verified" := by
  simp [verifyCommand, h0, hv]

theorem reachable_verified_ne_zero {s : ContractState}
    (hs : Reachable s) {mid : Nat}
    (hv : (s.decryptedMessages mid).isVerified = true) : mid ≠ 0 := by
  intro h
  subst h
  rw [(reachable_invariant hs).1] at hv
  exact Bool.false_ne_true hv

/-! The claims. -/

/-- Claim C1: in any reachable state, if the decrypted record of the
message id that a request id maps to has `isVerified = true`, a
`verifyCommand` call through that request id reverts with reason
"Already verified" (a revert aborts the transaction, so every storage
field is left unchanged). -/
theorem claim1_already_verified_callback_reverts
    (s : ContractState) (reqId : Nat) (hs : Reachable s)
    (hv : (s.decryptedMessages (s.requestToMessageId reqId)).isVerified
      = true)
    (command sourceEcu targetEcu : String) (caller : Nat) :
    verifyCommand s reqId command sourceEcu targetEcu caller =
      Except.error "Already verified" :=
  verifyCommand_already_verified (reachable_verified_ne_zero hs hv) hv
    command sourceEcu targetEcu caller

/-- Witness for C1: in the concrete reachable state `sVer`, request id 8
maps to the verified message 1 and the callback through it reverts with
"Already verified". -/
theorem claim1_witness :
    Reachable sVer ∧
    (sVer.decryptedMessages (sVer.requestToMessageId 8)).isVerified
      = true ∧
    verifyCommand sVer 8 "SET_TORQUE" "ECU_A" "ECU_B" 0 =
      Except.error "Already verified" :=
  ⟨reachable_sVer, rfl,
    claim1_already_verified_callback_reverts sVer 8 reachable_sVer rfl
      "SET_TORQUE" "ECU_A" "ECU_B" 0⟩

/-- Claim C2 counterexample: the claim says a callback through a second,
fresh request id pointing at an already-verified message "is not caught
(it is not rejected)".  On the code it IS rejected: in the concrete trace
`sVer`, request ids 7 and 8 both map to message 1, the callback via 7
verified the message, and the callback via the fresh id 8 reverts with
"Already verified". -/
theorem claim2_counterexample :
    sVer.requestToMessageId 7 = 1 ∧
    sVer.requestToMessageId 8 = 1 ∧
    (sVer.decryptedMessages 1).isVerified = true ∧
    verifyCommand sVer 8 "SET_TORQUE" "ECU_A" "ECU_B" 0 =
      Except.error "Already verified" :=
  ⟨rfl, rfl, rfl, rfl⟩

/-- Claim C2 amended: when two distinct request ids map to the same
message id and the message has been verified via the first, a
`verifyCommand` callback via the second, fresh request id is rejected —
by the "Already verified" guard on the target message, not by any
invalidation of the request mapping. -/
theorem claim2_amended_duplicate_request_rejected
    (s : ContractState) (hs : Reachable s) (reqId1 reqId2 mid : Nat)
    (hne : reqId1 ≠ reqId2)
    (h1 : s.requestToMessageId reqId1 = mid)
    (h2 : s.requestToMessageId reqId2 = mid)
    (hv : (s.decryptedMessages mid).isVerified = true)
    (command sourceEcu targetEcu : String) (caller : Nat) :
    verifyCommand s reqId2 command sourceEcu targetEcu caller =
      Except.error "Already verified" := by
  subst h2
  exact verifyCommand_already_verified
    (reachable_verified_ne_zero hs hv) hv command sourceEcu targetEcu
    caller

/-- Witness for the amended C2 at the concrete trace `sVer`. -/
theorem claim2_amended_witness :
    Reachable sVer ∧ (7 : Nat) ≠ 8 ∧
    sVer.requestToMessageId 7 = 1 ∧ sVer.requestToMessageId 8 = 1 ∧
    (sVer.decryptedMessages 1).isVerified = true ∧
    verifyCommand sVer 8 "SET_TORQUE" "ECU_A" "ECU_B" 0 =
      Except.error "Already verified" :=
  ⟨reachable_sVer, by decide, rfl, rfl, rfl,
    claim2_amended_duplicate_request_rejected sVer reachable_sVer 7 8 1
      (by decide) rfl rfl rfl "SET_TORQUE" "ECU_A" "ECU_B" 0⟩

/-- Claim C3: `submitEncryptedCanMessage` always succeeds (it is a total
state transformer), the first id is 1 (`messageCount` is 0 at
deployment) and each call assigns id `messageCount + 1` — so ids are
1, 2, 3, ... strictly increasing by one per call — storing the three
ciphertext handles with the current timestamp and initializing the
decrypted record to empty strings with `isVerified = false`. -/
theorem claim3_submit_sequential
    (s : ContractState) (c a b ts : Nat) :
    initialState.messageCount = 0 ∧
    (submitEncryptedCanMessage s c a b ts).messageCount =
      s.messageCount + 1 ∧
    (submitEncryptedCanMessage s c a b ts).encryptedMessages
      (s.messageCount + 1) = ⟨s.messageCount + 1, c, a, b, ts⟩ ∧
    (submitEncryptedCanMessage s c a b ts).decryptedMessages
      (s.messageCount + 1) = ⟨"", "", "", false⟩ := by
  refine ⟨rfl, rfl, ?_, ?_⟩ <;>
    simp [submitEncryptedCanMessage, Function.update_same]

/-- Claim C4 counterexample: the code lets verification be requested and
delivered for the never-submitted message id 1 (request id 7 from the
deployment state); the next submission then assigns id 1 and overwrites
the decrypted record, transitioning `isVerified` from true back to false
— refuting "no operation ever transitions isVerified from true back to
false" over reachable states. -/
theorem claim4_counterexample :
    Reachable eVer ∧
    (eVer.decryptedMessages 1).isVerified = true ∧
    Step eVer (submitEncryptedCanMessage eVer 0 0 0 0) ∧
    ((submitEncryptedCanMessage eVer 0 0 0 0).decryptedMessages
      1).isVerified = false :=
  ⟨reachable_eVer, rfl, Step.submit eVer 0 0 0 0, rfl⟩

/-- Claim C4 amended: under valid use — verification requested only for
already-submitted message ids, callbacks delivered only for such
requests (`StepV`/`ReachableV`) — the decrypted record of every message
is the empty record with `isVerified = false` until a successful
`verifyCommand` callback for that id, and no operation transitions
`isVerified` from true back to false. -/
theorem claim4_amended_lifecycle (s : ContractState)
    (hs : ReachableV s) :
    (∀ mid, (s.decryptedMessages mid).isVerified = false →
      (s.decryptedMessages mid).command = "" ∧
      (s.decryptedMessages mid).sourceEcu = "" ∧
      (s.decryptedMessages mid).targetEcu = "") ∧
    (∀ s' mid, StepV s s' →
      (s.decryptedMessages mid).isVerified = true →
      (s'.decryptedMessages mid).isVerified = true) := by
  constructor
  · intro mid hmid
    have h := (reachable_invariant hs.toReachable).2.2.2 mid hmid
    rw [h]
    exact ⟨rfl, rfl, rfl⟩
  · intro s' mid hstep hv
    exact stepV_preserves_verified hstep (reachableV_verifiedWithin hs)
      mid hv

/-- Witness for the amended C4 at the valid-use-reachable state `sVer`. -/
theorem claim4_amended_witness :
    ReachableV sVer ∧
    ((∀ mid, (sVer.decryptedMessages mid).isVerified = false →
      (sVer.decryptedMessages mid).command = "" ∧
      (sVer.decryptedMessages mid).sourceEcu = "" ∧
      (sVer.decryptedMessages mid).targetEcu = "") ∧
    (∀ s' mid, StepV sVer s' →
      (sVer.decryptedMessages mid).isVerified = true →
      (s'.decryptedMessages mid).isVerified = true)) :=
  ⟨reachableV_sVer, claim4_amended_lifecycle sVer reachableV_sVer⟩

/-- Claim C5: `requestCommandVerification` reverts exactly when the
message is already verified; for any message id with
`isVerified = false` — including ids never submitted (0 or above
`messageCount`) and ids with an outstanding request — it succeeds and
stores the oracle request id → message id mapping. -/
theorem claim5_request_iff
    (s : ContractState) (messageId reqId caller : Nat) :
    ((s.decryptedMessages messageId).isVerified = true →
      requestCommandVerification s messageId reqId caller =
        Except.error "Already verified") ∧
    ((s.decryptedMessages messageId).isVerified = false →
      requestCommandVerification s messageId reqId caller =
        Except.ok { s with
          requestToMessageId := Function.update s.requestToMessageId
            reqId messageId }) := by
  constructor <;> intro hv <;>
    simp [requestCommandVerification, onlyAuthorized, hv]

/-- Witness for C5: from the deployment state, a request for the
never-submitted message id 7 (messageCount is 0) succeeds and stores the
mapping. -/
theorem claim5_witness :
    initialState.messageCount = 0 ∧
    (initialState.decryptedMessages 7).isVerified = false ∧
    requestCommandVerification initialState 7 3 0 =
      Except.ok { initialState with
        requestToMessageId := Function.update
          initialState.requestToMessageId 3 7 } :=
  ⟨rfl, rfl, (claim5_request_iff initialState 7 3 0).2 rfl⟩

/-- Claim C6: a `verifyCommand` call whose request id is absent from the
request mapping (entry is the default 0) reverts with reason
"Invalid request"; the revert aborts the transaction, leaving the state
unchanged. -/
theorem claim6_invalid_request (s : ContractState) (reqId : Nat)
    (h : s.requestToMessageId reqId = 0)
    (command sourceEcu targetEcu : String) (caller : Nat) :
    verifyCommand s reqId command sourceEcu targetEcu caller =
      Except.error "Invalid request" := by
  simp [verifyCommand, h]

/-- Witness for C6 at the deployment state, where every request-mapping
entry is 0. -/
theorem claim6_witness :
    initialState.requestToMessageId 5 = 0 ∧
    verifyCommand initialState 5 "a" "b" "c" 0 =
      Except.error "Invalid request" :=
  ⟨rfl, claim6_invalid_request initialState 5 rfl "a" "b" "c" 0⟩

/-- Claim C7: every successful `verifyCommand` creates the per-ECU
counter for the decoded source ECU if absent (appending the name to
`ecuList`) and then increments it (counter `some 1` from absent,
`some ((v + 1) % 2 ^ 32)` from `some v`); and in every reachable state —
before and after such a callback — `ecuList` contains each ECU name at
most once (`Nodup`). -/
theorem claim7_registry_nodup (s : ContractState) (hs : Reachable s) :
    s.ecuList.Nodup ∧
    (∀ s' reqId command sourceEcu targetEcu caller,
      verifyCommand s reqId command sourceEcu targetEcu caller =
        Except.ok s' →
      (s.encryptedEcuStats sourceEcu = none →
        s'.ecuList = s.ecuList ++ [sourceEcu] ∧
        s'.encryptedEcuStats sourceEcu = some 1) ∧
      (∀ v, s.encryptedEcuStats sourceEcu = some v →
        s'.ecuList = s.ecuList ∧
        s'.encryptedEcuStats sourceEcu = some ((v + 1) % 2 ^ 32)) ∧
      s'.ecuList.Nodup) := by
  refine ⟨(reachable_invariant hs).2.1, ?_⟩
  intro s' reqId command sourceEcu targetEcu caller hok
  obtain ⟨h0, hv, rfl⟩ := verifyCommand_ok hok
  refine ⟨?_, ?_, ?_⟩
  · intro hstat
    constructor
    · simp [applyVerify, hstat]
    · simp [applyVerify, hstat, Function.update_same]
  · intro v hstat
    constructor
    · simp [applyVerify, hstat]
    · simp [applyVerify, hstat, Function.update_same]
  · exact (contractInvariant_applyVerify (reachable_invariant hs) h0
      command sourceEcu targetEcu).2.1

/-- Witness for C7: at the concrete reachable state `sReq78` the
registry is duplicate-free; the successful callback for request id 7
appends "ECU_A" (absent before) and sets its counter to `some 1`, and
the registry stays duplicate-free. -/
theorem claim7_witness :
    Reachable sReq78 ∧
    sReq78.ecuList.Nodup ∧
    sVer.ecuList = sReq78.ecuList ++ ["ECU_A"] ∧
    sVer.encryptedEcuStats "ECU_A" = some 1 ∧
    sVer.ecuList.Nodup := by
  have hr : Reachable sReq78 := reachableV_sReq78.toReachable
  have h := claim7_registry_nodup sReq78 hr
  have hb := h.2 sVer 7 "SET_TORQUE" "ECU_A" "ECU_B" 0 rfl
  exact ⟨hr, h.1, (hb.1 rfl).1, (hb.1 rfl).2, hb.2.2⟩

/-- A fold that increments both components of a pair on every element
satisfying `p` computes the filter count on each side. -/
theorem countPair_foldl (p : Nat → Bool) (l : List Nat) (v t : Nat) :
    (l.foldl (fun (acc : Nat × Nat) i =>
      if p i then (acc.1 + 1, acc.2 + 1) else acc) (v, t)) =
    (v + (l.filter p).length, t + (l.filter p).length) := by
  induction l generalizing v t with
  | nil => rfl
  | cons i l ih =>
    by_cases hp : p i = true
    · rw [List.foldl_cons, List.filter_cons_of_pos hp]
      simp only [hp, if_true]
      rw [ih]
      simp only [List.length_cons, Prod.mk.injEq]
      omega
    · rw [List.foldl_cons,
        List.filter_cons_of_neg (by simpa using hp)]
      simp only [hp, if_false]
      rw [ih]
      simp

/-- The trust-score loop accumulates exactly the two filter counts: both
components count the matching messages, because `validateCommand` is the
constant-true stub (the loop body is definitionally the `countPair_foldl`
step). -/
theorem trustScore_foldl (dm : Nat → DecryptedCanMessage)
    (ecuId : String) (l : List Nat) (v t : Nat) :
    (l.foldl (fun (acc : Nat × Nat) i =>
      if (dm i).isVerified && ((dm i).sourceEcu == ecuId) then
        if validateCommand (dm i).command (dm i).sourceEcu
            (dm i).targetEcu then
          (acc.1 + 1, acc.2 + 1)
        else
          (acc.1, acc.2 + 1)
      else acc) (v, t)) =
    (v + (l.filter (fun i =>
        (dm i).isVerified && ((dm i).sourceEcu == ecuId))).length,
     t + (l.filter (fun i =>
        (dm i).isVerified && ((dm i).sourceEcu == ecuId))).length) := by
  exact countPair_foldl
    (fun i => (dm i).isVerified && ((dm i).sourceEcu == ecuId)) l v t

/-- The two spec-side counts coincide because `validateCommand` is the
constant-true stub. -/
theorem validVerified_eq_verified (s : ContractState) (ecuId : String) :
    validVerifiedFromCount s ecuId = verifiedFromCount s ecuId := by
  simp [validVerifiedFromCount, verifiedFromCount, validateCommand]

/-- Claim C8: `calculateEcuTrustScore` returns 100 for an ECU with zero
verified messages, and with `n > 0` verified messages from that ECU of
which `k` pass `validateCommand` it returns `floor(k * 100 / n)` (Nat
division is floor division); since `validateCommand` always passes,
`k = n` and the score is always 100. -/
theorem claim8_trust_score (s : ContractState) (ecuId : String) :
    calculateEcuTrustScore s ecuId =
      (if verifiedFromCount s ecuId = 0 then 100
       else validVerifiedFromCount s ecuId * 100 /
         verifiedFromCount s ecuId) ∧
    calculateEcuTrustScore s ecuId = 100 := by
  have hscore : calculateEcuTrustScore s ecuId =
      (if verifiedFromCount s ecuId > 0 then
        verifiedFromCount s ecuId * 100 / verifiedFromCount s ecuId
       else 100) := by
    unfold calculateEcuTrustScore
    rw [trustScore_foldl]
    simp [verifiedFromCount]
  have hcancel : ∀ n : Nat, 0 < n → n * 100 / n = 100 := by
    intro n hn
    exact Nat.mul_div_cancel_left 100 hn
  constructor
  · rw [hscore, validVerified_eq_verified]
    rcases Nat.eq_zero_or_pos (verifiedFromCount s ecuId) with h | h
    · simp [h]
    · simp [h, Nat.pos_iff_ne_zero.mp h]
  · rw [hscore]
    rcases Nat.eq_zero_or_pos (verifiedFromCount s ecuId) with h | h
    · simp [h]
    · simp [h, hcancel _ h]

/-- Claim C9: `decryptEcuStats` performs no storage write whether or not
it succeeds: it either returns the state unchanged (the decoded cleartext
counter is discarded) or reverts with "ECU not found" when the stored
hash matches no registered ECU name. -/
theorem claim9_decryptEcuStats_writes_nothing
    (s : ContractState) (reqId stats caller : Nat) :
    decryptEcuStats s reqId stats caller = Except.ok s ∨
    decryptEcuStats s reqId stats caller =
      Except.error "ECU not found" := by
  unfold decryptEcuStats getEcuFromHash
  cases hf : s.ecuList.find? (fun e =>
      keccakStr e = s.requestToMessageId reqId) with
  | none => right; rfl
  | some e => left; rfl

/-- Claim C10: the `onlyAuthorized` modifier imposes no condition —
it accepts every caller — and none of the request functions or oracle
callbacks depends on the caller identity: each returns the same result
for any two callers (the proof signature check, modelled as the
callbacks receiving oracle-decoded cleartexts, is the only guard on
callback delivery). -/
theorem claim10_caller_irrelevant :
    (∀ messageId caller, onlyAuthorized messageId caller = true) ∧
    (∀ (s : ContractState) (messageId reqId c c' : Nat),
      requestCommandVerification s messageId reqId c =
        requestCommandVerification s messageId reqId c') ∧
    (∀ (s : ContractState) (reqId : Nat)
      (command sourceEcu targetEcu : String) (c c' : Nat),
      verifyCommand s reqId command sourceEcu targetEcu c =
        verifyCommand s reqId command sourceEcu targetEcu c') ∧
    (∀ (s : ContractState) (ecuId : String) (reqId c c' : Nat),
      requestEcuStatsDecryption s ecuId reqId c =
        requestEcuStatsDecryption s ecuId reqId c') ∧
    (∀ (s : ContractState) (reqId stats c c' : Nat),
      decryptEcuStats s reqId stats c = decryptEcuStats s reqId stats c') :=
  ⟨fun _ _ => rfl, fun _ _ _ _ _ => rfl, fun _ _ _ _ _ _ _ => rfl,
    fun _ _ _ _ _ => rfl, fun _ _ _ _ _ => rfl⟩

end AutoEcuFHE
